import Mathlib

/-!
Verification development for the golink persistence layer (sqlite.go and
convex.go of the convex-golink repository).

The Go code is shallowly embedded:
- The SQLite database is a pure state (a list of Link rows and a list of
  Stats ledger rows); each SQL statement becomes a pure function on that
  state.
- Go maps (map[string]string, map[string]int, map[string]interface\x7b\x7d) are
  modelled as association lists with insert-or-replace assignment and
  zero-value-returning lookup, mirroring Go map semantics.
- The HTTP environment of the Convex client (the outcome of http.Post and
  the decoded response envelope) is passed in as an explicit argument, so
  the client's control flow on each possible response is a pure function.
- Go errors are modelled by a sum: the distinguished sentinel fs.ErrNotExist
  versus a generic error carrying the message built by fmt.Errorf.
-/

set_option autoImplicit false

namespace Golink

/-! ## Entity model

Go's time.Time is modelled by its wall-clock components that the code
observes: whole seconds since the epoch (Time.Unix), nanoseconds within the
second, and whether the location is UTC (time.Unix gives a non-UTC local
time; .UTC() sets the flag). -/

structure GoTime where
  sec : Int
  nsec : Nat
  utc : Bool
  deriving DecidableEq, Repr

/-- Modelled from the spec: the Link record (entity model of section 3); the
Go struct Link lives outside src/. Fields are the ones sqlite.go and
convex.go read and write: Short, Long, Created, LastEdit, Owner. -/
structure Link where
  short : String
  long : String
  created : GoTime
  lastEdit : GoTime
  owner : String
  deriving DecidableEq, Repr

/-- Modelled from the spec: the identifier normalizer linkID (section 4.1);
its body lives outside src/. It canonicalizes a display name into a
case-stable storage key: a pure, total, deterministic lowercasing. -/
def lowerChar (c : Char) : Char :=
  if ('A' ≤ c ∧ c ≤ 'Z') then (Char.ofNat (c.toNat + 32)) else c

/-- Modelled from the spec: linkID, see lowerChar. -/
def linkID (short : String) : String :=
  ⟨short.data.map lowerChar⟩

/-! ## Go map model

An association list with Go map assignment (insert or replace, keys stay
unique) and Go map read (Option-valued, plus the zero-value-defaulting read
m[k] used by LoadStats). -/

def mapGet {α : Type} : List (String × α) → String → Option α
  | [], _ => none
  | (k0, v0) :: rest, k => if k0 = k then some v0 else mapGet rest k

def mapGetD {α : Type} (l : List (String × α)) (k : String) (d : α) : α :=
  (mapGet l k).getD d

def mapSet {α : Type} : List (String × α) → String → α → List (String × α)
  | [], k, v => [(k, v)]
  | (k0, v0) :: rest, k, v =>
      if k0 = k then (k, v) :: rest else (k0, v0) :: mapSet rest k v

theorem mapGet_mapSet_self {α : Type} (l : List (String × α)) (k : String) (v : α) :
    mapGet (mapSet l k v) k = some v := by
  induction l with
  | nil => simp [mapSet, mapGet]
  | cons p rest ih =>
      obtain ⟨k0, v0⟩ := p
      by_cases h : k0 = k
      · simp [mapSet, h, mapGet]
      · simp [mapSet, h, mapGet, ih]

theorem mapGet_mapSet_ne {α : Type} (l : List (String × α)) (k j : String) (v : α)
    (hne : j ≠ k) : mapGet (mapSet l k v) j = mapGet l j := by
  have hkj : k ≠ j := Ne.symm hne
  induction l with
  | nil => simp [mapSet, mapGet, hkj]
  | cons p rest ih =>
      obtain ⟨k0, v0⟩ := p
      by_cases h : k0 = k
      · subst h
        simp [mapSet, mapGet, hkj]
      · simp [mapSet, h, mapGet, ih]

/-- Folding map assignments whose keys all differ from k leaves the value at
k unchanged. -/
theorem mapGet_foldl_of_ne {α γ : Type} (keyF : γ → String) (valF : γ → α)
    (xs : List γ) (acc : List (String × α)) (k : String)
    (h : ∀ x ∈ xs, keyF x ≠ k) :
    mapGet (xs.foldl (fun m x => mapSet m (keyF x) (valF x)) acc) k = mapGet acc k := by
  induction xs generalizing acc with
  | nil => rfl
  | cons x rest ih =>
      have hx : keyF x ≠ k := h x (by simp)
      have hrest : ∀ y ∈ rest, keyF y ≠ k := fun y hy => h y (by simp [hy])
      simp only [List.foldl_cons]
      rw [ih _ hrest, mapGet_mapSet_ne _ _ _ _ (Ne.symm hx)]

/-- Folding map assignments: if every element whose key is k assigns the
value v, and either some element has key k or the accumulator already maps k
to v, then the result maps k to v. -/
theorem mapGet_foldl_of_mem {α γ : Type} (keyF : γ → String) (valF : γ → α)
    (xs : List γ) (acc : List (String × α)) (k : String) (v : α)
    (hall : ∀ x ∈ xs, keyF x = k → valF x = v)
    (hmem : (∃ x ∈ xs, keyF x = k) ∨ mapGet acc k = some v) :
    mapGet (xs.foldl (fun m x => mapSet m (keyF x) (valF x)) acc) k = some v := by
  induction xs generalizing acc with
  | nil =>
      rcases hmem with ⟨x, hx, _⟩ | h
      · exact absurd hx (by simp)
      · simpa using h
  | cons x rest ih =>
      have hallrest : ∀ y ∈ rest, keyF y = k → valF y = v :=
        fun y hy => hall y (by simp [hy])
      by_cases hx : keyF x = k
      · have hv : valF x = v := hall x (by simp) hx
        simp only [List.foldl_cons]
        refine ih _ hallrest (Or.inr ?_)
        rw [hx, hv, mapGet_mapSet_self]
      · simp only [List.foldl_cons]
        refine ih _ hallrest ?_
        rcases hmem with ⟨y, hy, hyk⟩ | h
        · rcases List.mem_cons.mp hy with rfl | hy2
          · exact absurd hyk hx
          · exact Or.inl ⟨y, hy2, hyk⟩
        · exact Or.inr (by rw [mapGet_mapSet_ne _ _ _ _ (Ne.symm hx)]; exact h)

/-- Any binding present after folding map assignments over xs came either
from some element of xs or from the accumulator. -/
theorem mapGet_foldl_inv {α γ : Type} (keyF : γ → String) (valF : γ → α)
    (xs : List γ) (acc : List (String × α)) (k : String) (v : α)
    (h : mapGet (xs.foldl (fun m x => mapSet m (keyF x) (valF x)) acc) k = some v) :
    (∃ x ∈ xs, keyF x = k ∧ valF x = v) ∨ mapGet acc k = some v := by
  induction xs generalizing acc with
  | nil => exact Or.inr h
  | cons x rest ih =>
      simp only [List.foldl_cons] at h
      rcases ih _ h with ⟨y, hy, hk, hv⟩ | hacc
      · exact Or.inl ⟨y, by simp [hy], hk, hv⟩
      · by_cases hx : keyF x = k
        · rw [hx, mapGet_mapSet_self] at hacc
          exact Or.inl ⟨x, by simp, hx, by injection hacc⟩
        · rw [mapGet_mapSet_ne _ _ _ _ (Ne.symm hx)] at hacc
          exact Or.inr hacc

/-! ## Go error model

fs.ErrNotExist is a distinguished sentinel value callers test with
errors.Is; every other error the two files construct is a fmt.Errorf value
distinguished only by its message. -/

inductive GoErr where
  | errNotExist
  | errorf (msg : String)
  deriving DecidableEq, Repr

/-! ## SQLite store (sqlite.go)

The database state is the content of the two tables described by the
persisted layout: Links (one row per normalized ID: primary key ID, columns
Short, Long, Created, LastEdit, Owner, timestamps as integer epoch seconds)
and Stats (an append-only ledger of rows ID, Created, Clicks). -/

structure LinkRow where
  id : String
  short : String
  long : String
  created : Int
  lastEdit : Int
  owner : String
  deriving DecidableEq, Repr

structure StatsRow where
  id : String
  created : Int
  clicks : Int
  deriving DecidableEq, Repr

structure DBState where
  links : List LinkRow
  stats : List StatsRow
  deriving DecidableEq, Repr

namespace SQLiteDB

/-- The row Save writes: ID = linkID(link.Short), timestamps via Time.Unix
(whole epoch seconds). -/
def rowOfLink (l : Link) : LinkRow :=
  ⟨linkID l.short, l.short, l.long, l.created.sec, l.lastEdit.sec, l.owner⟩

/-- INSERT OR REPLACE on the Links table, whose primary key is ID: the row
with the same ID is replaced, otherwise the row is appended. -/
def upsertRow (links : List LinkRow) (r : LinkRow) : List LinkRow :=
  if links.any (fun x => x.id = r.id) then
    links.map (fun x => if x.id = r.id then r else x)
  else links ++ [r]

/-- The state after the INSERT OR REPLACE statement of Save. -/
def saveState (s : DBState) (l : Link) : DBState :=
  { s with links := upsertRow s.links (rowOfLink l) }

/-- Lines 101 to 107 of sqlite.go: Save inspects result.RowsAffected() and
fails with the row-count error (the ValidationError of the spec taxonomy)
unless exactly one row was affected. -/
def saveResultCheck (s2 : DBState) (rows : Int) : Except GoErr DBState :=
  if rows = 1 then .ok s2
  else .error (.errorf (("expected to affect 1 row, affected ") ++ toString rows))

/-- Save: INSERT OR REPLACE, then the RowsAffected check. A successful
INSERT OR REPLACE reports exactly one affected row (rows deleted by REPLACE
conflict resolution are not counted by sqlite), so the statement's report is
1. -/
def Save (s : DBState) (l : Link) : Except GoErr DBState :=
  saveResultCheck (saveState s l) 1

/-- The Link built from a row: time.Unix(sec, 0).UTC(). -/
def linkOfRow (r : LinkRow) : Link :=
  ⟨r.short, r.long, ⟨r.created, 0, true⟩, ⟨r.lastEdit, 0, true⟩, r.owner⟩

/-- Load: SELECT ... WHERE ID = linkID(short) LIMIT 1; sql.ErrNoRows is
mapped to fs.ErrNotExist. -/
def Load (s : DBState) (short : String) : Except GoErr Link :=
  match s.links.find? (fun r => r.id = linkID short) with
  | none => .error .errNotExist
  | some r => .ok (linkOfRow r)

/-- LoadAll: SELECT every Links row. -/
def LoadAll (s : DBState) : List Link :=
  s.links.map linkOfRow

/-- The linkmap of LoadStats: for each stored link,
linkmap[linkID(link.Short)] = link.Short (a Go map, later assignments
replace earlier ones). -/
def buildLinkmap (links : List LinkRow) : List (String × String) :=
  links.foldl (fun acc r => mapSet acc (linkID r.short) r.short) []

/-- SUM(Clicks) of the ledger rows of one ID. -/
def sumClicks (rows : List StatsRow) (id : String) : Int :=
  ((rows.filter (fun r => r.id = id)).map (fun r => r.clicks)).sum

/-- The distinct IDs of the ledger, one group per ID as produced by
GROUP BY ID (the group order is unspecified in SQL; the model picks a
canonical order). -/
def ledgerIDs (rows : List StatsRow) : List String :=
  (rows.map (fun r => r.id)).dedup

/-- LoadStats: one output assignment stats[linkmap[id]] = SUM(Clicks) per
ID group. A Go map read of a missing key yields the zero value, so an ID
with no stored link is assigned under the empty-string display name. -/
def LoadStats (s : DBState) : List (String × Int) :=
  let lm := buildLinkmap s.links
  (ledgerIDs s.stats).foldl
    (fun acc id => mapSet acc (mapGetD lm id ("")) (sumClicks s.stats id)) []

/-- One tx.Exec of the SaveStats loop, with the outcome of each statement
(success, or a failure injected by the environment) supplied as a list of
flags: the i-th flag says whether the i-th INSERT fails. On success the row
joins the transaction's pending writes; pending writes reach the state only
at Commit. -/
def execLoop (now : Int) : List (String × Int) → List Bool → Except GoErr (List StatsRow)
  | [], _ => .ok []
  | (short, clicks) :: rest, failures =>
      if failures.headD false then .error (.errorf ("tx exec failed"))
      else
        match execLoop now rest failures.tail with
        | .error e => .error e
        | .ok rows => .ok (⟨linkID short, now, clicks⟩ :: rows)

/-- SaveStats: a single transaction inserting one ledger row per delta; on
the first failing insert the transaction is rolled back (its pending rows
are discarded and the state is returned unchanged) and the error returned;
otherwise Commit appends every pending row. The deltas list is one
iteration order of the Go map; now is time.Now().Unix(). -/
def SaveStats (s : DBState) (now : Int) (deltas : List (String × Int))
    (failures : List Bool) : DBState × Option GoErr :=
  match execLoop now deltas failures with
  | .error e => (s, some e)
  | .ok rows => ({ s with stats := s.stats ++ rows }, none)

end SQLiteDB

/-! ## Convex remote store (convex.go)

The HTTP round trip is an interaction with the environment, so each client
operation takes the outcome of http.Post (a network error, or a status code
with the decoded response envelope) as an explicit argument and is a pure
function of it. -/

/-- A Link document as it stands on the wire: created and lastEdit are
integer epoch-second numerals. -/
structure LinkDocumentRaw where
  normalizedId : String
  short : String
  long : String
  created : Int
  lastEdit : Int
  owner : String
  deriving DecidableEq, Repr

/-- Binary logarithm by structural fuel recursion, so that it reduces in
the kernel; log2fuel m m is the floor of log2 of m. -/
def log2fuel : Nat → Nat → Nat
  | 0, _ => 0
  | fuel + 1, n => if n ≥ 2 then log2fuel fuel (n / 2) + 1 else 0

/-- Rounding of a natural number to the nearest IEEE-754 binary64 value
(round half to even at a 53-bit significand, exponent unbounded: no epoch
value within reach of the program approaches the binary64 overflow
threshold). Below 2 to the 53 every natural number is exact. -/
def f64roundNat (m : Nat) : Nat :=
  if m < 2 ^ 53 then m
  else
    let e := log2fuel m m - 52
    let q := m / 2 ^ e
    let r := m % 2 ^ e
    let half := 2 ^ (e - 1)
    if r > half ∨ (r = half ∧ q % 2 = 1) then (q + 1) * 2 ^ e else q * 2 ^ e

/-- Rounding of an integer to the nearest binary64 value. -/
def f64roundInt (n : Int) : Int :=
  if 0 ≤ n then (f64roundNat n.toNat : Int) else -(f64roundNat (-n).toNat : Int)

/-- The Go-side LinkDocument after JSON decoding. Created and LastEdit are
float64 struct fields in convex.go, so the integer numeral on the wire is
parsed into a float64 (decoder.UseNumber only affects interface-typed
destinations, not struct fields); the model records the exact integer the
rounded float carries, which int64(doc.Created) then recovers. -/
structure LinkDocument where
  id : String
  short : String
  long : String
  created : Int
  lastEdit : Int
  owner : String
  deriving DecidableEq, Repr

/-- JSON decoding of a wire document into the LinkDocument struct: string
fields are exact, the numeric fields pass through float64. -/
def decodeLinkDocument (d : LinkDocumentRaw) : LinkDocument :=
  ⟨d.normalizedId, d.short, d.long, f64roundInt d.created, f64roundInt d.lastEdit, d.owner⟩

/-- Lines 121 to 127 and 151 to 157 of convex.go: the Link built from a
decoded document, time.Unix(int64(doc.Created), 0) with no .UTC() call. -/
def linkOfDocument (d : LinkDocument) : Link :=
  ⟨d.short, d.long, ⟨d.created, 0, false⟩, ⟨d.lastEdit, 0, false⟩, d.owner⟩

/-- The document ConvexDB.Save builds: Created is
float64(link.Created.Unix()), an int64-to-float64 conversion that rounds to
nearest. -/
def documentOfLink (l : Link) : LinkDocument :=
  ⟨linkID l.short, l.short, l.long, f64roundInt l.created.sec, f64roundInt l.lastEdit.sec, l.owner⟩

/-- Marshaling a LinkDocument: an integral float64 marshals as the exact
integer numeral it carries. -/
def rawOfDocument (d : LinkDocument) : LinkDocumentRaw :=
  ⟨d.id, d.short, d.long, d.created, d.lastEdit, d.owner⟩

/-- The JSON values this client sends and receives. -/
inductive JVal where
  | null
  | str (s : String)
  | num (n : Int)
  | doc (d : LinkDocumentRaw)
  | docs (ds : List LinkDocumentRaw)
  | stats (m : List (String × Int))
  deriving DecidableEq, Repr

structure ConvexDB where
  url : String
  token : String
  deriving DecidableEq, Repr

/-- The request body: path, named args, format. Args is a Go map the
caller's operation builds and the transport layer mutates. -/
structure UdfExecution where
  path : String
  args : List (String × JVal)
  format : String
  deriving DecidableEq, Repr

/-- The decoded response envelope. -/
structure ConvexResponse where
  status : String
  value : JVal
  errorMessage : String
  deriving DecidableEq, Repr

/-- An HTTP response: status code, the envelope if the body decodes as one,
and a rendering of the body used in error messages. -/
structure HttpResp where
  code : Int
  body : Option ConvexResponse
  bodyRepr : String
  deriving DecidableEq, Repr

/-- Outcome of http.Post: a transport error, or a response. -/
inductive HttpOutcome where
  | netErr (msg : String)
  | resp (r : HttpResp)
  deriving DecidableEq, Repr

namespace ConvexDB

/-- Control flow of ConvexDB.mutation after the token has been merged:
non-200 status code, undecodable body, then the envelope status. -/
def mutationResult (outcome : HttpOutcome) : Except GoErr Unit :=
  match outcome with
  | .netErr m => .error (.errorf m)
  | .resp r =>
      if r.code ≠ 200 then
        .error (.errorf (("unexpected status code from Convex: ") ++ toString r.code))
      else
        match r.body with
        | none => .error (.errorf (("json decode error: ") ++ r.bodyRepr))
        | some env =>
            if env.status = ("success") then .ok ()
            else if env.status = ("error") then
              .error (.errorf (("error from Convex: ") ++ env.errorMessage))
            else .error (.errorf (("unexpected response from Convex: ") ++ r.bodyRepr))

/-- ConvexDB.mutation: first merges the bearer token into the caller's args
map (an in-place mutation of the caller-visible map, returned here as the
first component), then runs the round trip. -/
def mutation (c : ConvexDB) (args : UdfExecution) (outcome : HttpOutcome) :
    UdfExecution × Except GoErr Unit :=
  ({ args with args := mapSet args.args ("token") (.str c.token) }, mutationResult outcome)

/-- Control flow of ConvexDB.query after the token has been merged; on a
non-200 status code the error message additionally carries the body. -/
def queryResult (outcome : HttpOutcome) : Except GoErr JVal :=
  match outcome with
  | .netErr m => .error (.errorf m)
  | .resp r =>
      if r.code ≠ 200 then
        .error (.errorf ((("unexpected status code from Convex: ") ++ toString r.code)
          ++ (": ") ++ r.bodyRepr))
      else
        match r.body with
        | none => .error (.errorf (("json decode error: ") ++ r.bodyRepr))
        | some env =>
            if env.status = ("success") then .ok env.value
            else if env.status = ("error") then
              .error (.errorf (("error from Convex: ") ++ env.errorMessage))
            else .error (.errorf (("unexpected response from Convex: ") ++ r.bodyRepr))

/-- ConvexDB.query: token merge into the caller-visible args map, then the
round trip. -/
def query (c : ConvexDB) (args : UdfExecution) (outcome : HttpOutcome) :
    UdfExecution × Except GoErr JVal :=
  ({ args with args := mapSet args.args ("token") (.str c.token) }, queryResult outcome)

/-- ConvexDB.Load: runs the loadOne query, decodes the value into an
optional LinkDocument (JSON null decodes to a nil document, any other
non-document value fails to unmarshal), and maps the nil document to
fs.ErrNotExist. -/
def Load (c : ConvexDB) (short : String) (outcome : HttpOutcome) : Except GoErr Link :=
  match (query c ⟨("load:loadOne"), [(("normalizedId"), .str (linkID short))], ("json")⟩
      outcome).2 with
  | .error e => .error e
  | .ok v =>
      match v with
      | .null => .error .errNotExist
      | .doc d => .ok (linkOfDocument (decodeLinkDocument d))
      | _ => .error (.errorf ("json unmarshal error"))

/-- ConvexDB.LoadAll: runs the loadAll query and decodes the value into a
slice of documents (JSON null decodes to the empty slice). -/
def LoadAll (c : ConvexDB) (outcome : HttpOutcome) : Except GoErr (List Link) :=
  match (query c ⟨("load:loadAll"), [], ("json")⟩ outcome).2 with
  | .error e => .error e
  | .ok v =>
      match v with
      | .null => .ok []
      | .docs ds => .ok (ds.map (fun d => linkOfDocument (decodeLinkDocument d)))
      | _ => .error (.errorf ("json unmarshal error"))

/-- ConvexDB.Save: builds the store mutation with the marshaled document. -/
def Save (c : ConvexDB) (l : Link) (outcome : HttpOutcome) :
    UdfExecution × Except GoErr Unit :=
  mutation c ⟨("store"), [(("link"), .doc (rawOfDocument (documentOfLink l)))], ("json")⟩
    outcome

end ConvexDB

/-! ## Helper lemmas about the SQLite model -/

namespace SQLiteDB

theorem find?_map_replace (links : List LinkRow) (r : LinkRow)
    (h : links.any (fun x => x.id = r.id) = true) :
    (links.map (fun x => if x.id = r.id then r else x)).find? (fun x => x.id = r.id)
      = some r := by
  induction links with
  | nil => simp at h
  | cons x rest ih =>
      by_cases hx : x.id = r.id
      · simp [List.find?, hx]
      · have h2 : rest.any (fun x => x.id = r.id) = true := by
          simpa [hx] using h
        simpa [List.find?, hx] using ih h2

theorem find?_append_of_none {p : LinkRow → Bool} (l1 l2 : List LinkRow)
    (h : ∀ x ∈ l1, ¬ p x = true) :
    (l1 ++ l2).find? p = l2.find? p := by
  induction l1 with
  | nil => rfl
  | cons x rest ih =>
      have hx : ¬ p x = true := h x (by simp)
      have hrest : ∀ y ∈ rest, ¬ p y = true := fun y hy => h y (by simp [hy])
      simp [List.find?, hx, ih hrest]

/-- The row Save just wrote is the one Load's lookup by its ID finds. -/
theorem find?_upsertRow (links : List LinkRow) (r : LinkRow) :
    (upsertRow links r).find? (fun x => x.id = r.id) = some r := by
  unfold upsertRow
  by_cases h : links.any (fun x => x.id = r.id) = true
  · simpa [h] using find?_map_replace links r h
  · have hall : ∀ x ∈ links, ¬ (x.id = r.id) := by
      simpa [List.any_eq_true] using h
    have : ((links ++ [r]).find? (fun x => x.id = r.id)) = some r := by
      rw [find?_append_of_none _ _ (by simpa using hall)]
      simp [List.find?]
    simpa [h] using this

theorem filter_map_replace (links : List LinkRow) (r : LinkRow)
    (hnd : (links.map (fun x => x.id)).Nodup)
    (h : links.any (fun x => x.id = r.id) = true) :
    (links.map (fun x => if x.id = r.id then r else x)).filter (fun x => x.id = r.id)
      = [r] := by
  induction links with
  | nil => simp at h
  | cons x rest ih =>
      have hnd2 : (rest.map (fun x => x.id)).Nodup := (List.nodup_cons.mp hnd).2
      by_cases hx : x.id = r.id
      · have hnotin : x.id ∉ rest.map (fun y => y.id) := (List.nodup_cons.mp hnd).1
        have hrest : ∀ y ∈ rest, ¬ (y.id = r.id) := by
          intro y hy hyr
          apply hnotin
          rw [hx, ← hyr]
          exact List.mem_map_of_mem _ hy
        have hmap : rest.map (fun y => if y.id = r.id then r else y) = rest := by
          have hid : rest.map (fun y => if y.id = r.id then r else y) = rest.map id :=
            List.map_congr_left (fun y hy => by simp [hrest y hy])
          simpa using hid
        have hfil : rest.filter (fun y => y.id = r.id) = [] :=
          List.filter_eq_nil_iff.mpr (by simpa using hrest)
        simp [hx, hmap, hfil, List.filter]
      · have h2 : rest.any (fun y => y.id = r.id) = true := by
          simpa [hx] using h
        simpa [List.filter, hx] using ih hnd2 h2

/-- After an upsert, exactly the upserted row matches its ID (primary key
uniqueness assumed on the pre-state). -/
theorem filter_upsertRow (links : List LinkRow) (r : LinkRow)
    (hnd : (links.map (fun x => x.id)).Nodup) :
    (upsertRow links r).filter (fun x => x.id = r.id) = [r] := by
  unfold upsertRow
  by_cases h : links.any (fun x => x.id = r.id) = true
  · simpa [h] using filter_map_replace links r hnd h
  · have hall : ∀ x ∈ links, ¬ (x.id = r.id) := by
      simpa [List.any_eq_true] using h
    have hfil : links.filter (fun x => x.id = r.id) = [] :=
      List.filter_eq_nil_iff.mpr (by simpa using hall)
    simp [h, List.filter_append, hfil, List.filter]

/-- Upsert keeps the primary-key uniqueness of the Links table. -/
theorem nodup_upsertRow (links : List LinkRow) (r : LinkRow)
    (hnd : (links.map (fun x => x.id)).Nodup) :
    ((upsertRow links r).map (fun x => x.id)).Nodup := by
  unfold upsertRow
  by_cases h : links.any (fun x => x.id = r.id) = true
  · have hids : (links.map (fun x => if x.id = r.id then r else x)).map (fun x => x.id)
        = links.map (fun x => x.id) := by
      rw [List.map_map]
      apply List.map_congr_left
      intro y _
      by_cases hy : y.id = r.id <;> simp [hy]
    simpa [h, hids]
  · have hall : ∀ x ∈ links, ¬ (x.id = r.id) := by
      simpa [List.any_eq_true] using h
    have hnotin : r.id ∉ links.map (fun x => x.id) := by
      intro hmem
      obtain ⟨x, hx, hxid⟩ := List.mem_map.mp hmem
      exact hall x hx hxid
    simp [h, List.nodup_append, hnd, List.disjoint_singleton]
    simpa using hnotin

/-- When no insert of the transaction fails, the loop produces one pending
ledger row per delta. -/
theorem execLoop_ok (now : Int) (deltas : List (String × Int)) (failures : List Bool)
    (h : ∀ i, i < deltas.length → failures.getD i false = false) :
    execLoop now deltas failures =
      .ok (deltas.map (fun p => (⟨linkID p.1, now, p.2⟩ : StatsRow))) := by
  induction deltas generalizing failures with
  | nil => rfl
  | cons p rest ih =>
      obtain ⟨short, clicks⟩ := p
      cases failures with
      | nil =>
          have hrest : ∀ i, i < rest.length → ([] : List Bool).getD i false = false := by
            intro i _
            simp
          simp [execLoop, ih _ hrest]
      | cons f fs =>
          have h0 : f = false := by simpa using h 0 (by simp)
          have hrest : ∀ i, i < rest.length → fs.getD i false = false := by
            intro i hi
            simpa using h (i + 1) (by simpa using Nat.succ_lt_succ hi)
          simp [execLoop, h0, ih _ hrest]

/-- When some insert of the transaction fails, the loop fails. -/
theorem execLoop_error (now : Int) (deltas : List (String × Int)) (failures : List Bool)
    (h : ∃ i, i < deltas.length ∧ failures.getD i false = true) :
    ∃ e, execLoop now deltas failures = .error e := by
  induction deltas generalizing failures with
  | nil =>
      obtain ⟨i, hi, _⟩ := h
      simp at hi
  | cons p rest ih =>
      obtain ⟨short, clicks⟩ := p
      cases failures with
      | nil =>
          obtain ⟨i, hi, hf⟩ := h
          simp at hf
      | cons f fs =>
          cases f with
          | true => exact ⟨.errorf ("tx exec failed"), by simp [execLoop]⟩
          | false =>
              obtain ⟨i, hi, hf⟩ := h
              match i with
              | 0 => simp at hf
              | i + 1 =>
                  have hrest : ∃ j, j < rest.length ∧ fs.getD j false = true :=
                    ⟨i, by simpa using Nat.lt_of_succ_lt_succ hi, by simpa using hf⟩
                  obtain ⟨e, he⟩ := ih fs hrest
                  exact ⟨e, by simp [execLoop, he]⟩

/-- A present binding of the linkmap comes from a stored link: key is the
normalized ID of its display name, value the display name itself. -/
theorem buildLinkmap_inv (links : List LinkRow) (k v : String)
    (h : mapGet (buildLinkmap links) k = some v) :
    ∃ r ∈ links, linkID r.short = k ∧ r.short = v := by
  unfold buildLinkmap at h
  rcases mapGet_foldl_inv (fun r : LinkRow => linkID r.short) (fun r : LinkRow => r.short)
      links [] k v h with hc | habs
  · exact hc
  · simp [mapGet] at habs

/-- An ID no stored link normalizes to is absent from the linkmap. -/
theorem buildLinkmap_none (links : List LinkRow) (k : String)
    (h : ∀ r ∈ links, linkID r.short ≠ k) :
    mapGet (buildLinkmap links) k = none := by
  unfold buildLinkmap
  rw [mapGet_foldl_of_ne (fun r : LinkRow => linkID r.short) (fun r : LinkRow => r.short)
    links [] k h]
  rfl

theorem mem_ledgerIDs (rows : List StatsRow) (id : String) :
    id ∈ ledgerIDs rows ↔ ∃ r ∈ rows, r.id = id := by
  unfold ledgerIDs
  rw [List.mem_dedup, List.mem_map]

theorem sumClicks_append (xs ys : List StatsRow) (id : String) :
    sumClicks (xs ++ ys) id = sumClicks xs id + sumClicks ys id := by
  simp [sumClicks, List.filter_append]

/-- The running total LoadStats reports under a display name n: provided
the linkmap maps the normalized ID of n back to n and some ledger row
carries that ID, the reported value is the ledger sum of that ID. -/
theorem mapGet_LoadStats (s : DBState) (n : String) (hn : n ≠ (""))
    (hlm : mapGet (buildLinkmap s.links) (linkID n) = some n)
    (hmem : linkID n ∈ ledgerIDs s.stats) :
    mapGet (LoadStats s) n = some (sumClicks s.stats (linkID n)) := by
  unfold LoadStats
  apply mapGet_foldl_of_mem
    (fun id => mapGetD (buildLinkmap s.links) id (("")))
    (fun id => sumClicks s.stats id)
  · intro id _ hkey
    have hsome : mapGet (buildLinkmap s.links) id = some n := by
      unfold mapGetD at hkey
      cases hmg : mapGet (buildLinkmap s.links) id with
      | none =>
          rw [hmg] at hkey
          exact absurd hkey.symm hn
      | some v =>
          rw [hmg] at hkey
          simp at hkey
          rw [hkey]
    obtain ⟨r, _, hrid, hrshort⟩ := buildLinkmap_inv s.links id n hsome
    rw [← hrid, hrshort]
  · refine Or.inl ⟨linkID n, hmem, ?_⟩
    unfold mapGetD
    rw [hlm]
    rfl

end SQLiteDB

/-- String inequality by differing first characters. -/
theorem ne_of_head_ne (s t : String) (cs ct : Char)
    (hs : s.data.head? = some cs) (ht : t.data.head? = some ct) (hc : cs ≠ ct) :
    s ≠ t := by
  intro h
  subst h
  rw [hs] at ht
  exact hc (Option.some.inj ht)

/-! ## Claims -/

/-- C1 counterexample: after saving stats for the name bar into an empty
store, while no Link bar was ever saved, the orphaned entry is NOT silently
omitted from LoadStats output: there is indeed no entry under bar, but the
orphaned total surfaces under the empty-string key (the Go zero value the
missing linkmap entry yields), contradicting the claim that it appears
under no other key. -/
theorem claim_C1_counterexample :
    mapGet (SQLiteDB.LoadStats ((SQLiteDB.SaveStats ⟨[], []⟩ 0 [(("bar"), 3)] []).1))
        ("bar") = none ∧
    mapGet (SQLiteDB.LoadStats ((SQLiteDB.SaveStats ⟨[], []⟩ 0 [(("bar"), 3)] []).1))
        ("") = some 3 ∧
    ("") ≠ ("bar") := by
  decide

/-- C1 as amended: after SaveStats has recorded a delta for a short name n
(nonempty, as every real display name is) for which no stored Link
normalizes to the same key, LoadStats output has no entry under n; the
orphaned total is not dropped, however: it surfaces under the empty-string
display name, Go's zero value for the missing linkmap entry. -/
theorem claim_C1_orphan_under_empty_key (s : DBState) (now : Int) (n : String) (k : Int)
    (hn : n ≠ (""))
    (hq : s.stats = [])
    (hnokey : ∀ r ∈ s.links, linkID r.short ≠ linkID n) :
    mapGet (SQLiteDB.LoadStats ((SQLiteDB.SaveStats s now [(n, k)] []).1)) n = none ∧
    mapGet (SQLiteDB.LoadStats ((SQLiteDB.SaveStats s now [(n, k)] []).1)) ("")
      = some k := by
  have hS : (SQLiteDB.SaveStats s now [(n, k)] []).1
      = ⟨s.links, s.stats ++ [⟨linkID n, now, k⟩]⟩ := by
    simp [SQLiteDB.SaveStats, SQLiteDB.execLoop]
  rw [hS, hq]
  have hlm : mapGet (SQLiteDB.buildLinkmap s.links) (linkID n) = none :=
    SQLiteDB.buildLinkmap_none s.links (linkID n) hnokey
  have hids : SQLiteDB.ledgerIDs ([] ++ [⟨linkID n, now, k⟩]) = [linkID n] := by
    simp [SQLiteDB.ledgerIDs]
  have hload : SQLiteDB.LoadStats ⟨s.links, [] ++ [⟨linkID n, now, k⟩]⟩ = [((""), k)] := by
    unfold SQLiteDB.LoadStats
    rw [hids]
    simp only [List.foldl_cons, List.foldl_nil]
    unfold mapGetD
    rw [hlm]
    simp [mapSet, SQLiteDB.sumClicks]
  rw [hload]
  constructor
  · simp [mapGet, Ne.symm hn]
  · simp [mapGet]

/-- C1 amended witness at the concrete scenario of the claim. -/
theorem claim_C1_orphan_witness :
    mapGet (SQLiteDB.LoadStats ((SQLiteDB.SaveStats ⟨[], []⟩ 5 [(("bar"), 7)] []).1))
        ("bar") = none ∧
    mapGet (SQLiteDB.LoadStats ((SQLiteDB.SaveStats ⟨[], []⟩ 5 [(("bar"), 7)] []).1))
        ("") = some 7 :=
  claim_C1_orphan_under_empty_key ⟨[], []⟩ 5 ("bar") 7 (by decide) rfl (by decide)

/-- C2: click stats accumulate across flushes. For a name n whose stored
Link currently displays exactly n, two successive SaveStats flushes of
deltas a and b make the total LoadStats reports under n the previous ledger
total plus a plus b: repeated SaveStats calls add to rather than overwrite
the running total. -/
theorem claim_C2_stats_accumulate (s : DBState) (n : String) (a b now1 now2 : Int)
    (hn : n ≠ (""))
    (hlm : mapGet (SQLiteDB.buildLinkmap s.links) (linkID n) = some n) :
    mapGet (SQLiteDB.LoadStats
        ((SQLiteDB.SaveStats ((SQLiteDB.SaveStats s now1 [(n, a)] []).1)
          now2 [(n, b)] []).1)) n
      = some (SQLiteDB.sumClicks s.stats (linkID n) + a + b) := by
  have h1 : (SQLiteDB.SaveStats s now1 [(n, a)] []).1
      = ⟨s.links, s.stats ++ [⟨linkID n, now1, a⟩]⟩ := by
    simp [SQLiteDB.SaveStats, SQLiteDB.execLoop]
  have h2 : (SQLiteDB.SaveStats (⟨s.links, s.stats ++ [⟨linkID n, now1, a⟩]⟩ : DBState)
        now2 [(n, b)] []).1
      = ⟨s.links, (s.stats ++ [⟨linkID n, now1, a⟩]) ++ [⟨linkID n, now2, b⟩]⟩ := by
    simp [SQLiteDB.SaveStats, SQLiteDB.execLoop]
  rw [h1, h2]
  have hmem : linkID n ∈ SQLiteDB.ledgerIDs
      ((s.stats ++ [⟨linkID n, now1, a⟩]) ++ [⟨linkID n, now2, b⟩]) := by
    rw [SQLiteDB.mem_ledgerIDs]
    exact ⟨⟨linkID n, now2, b⟩, by simp, rfl⟩
  refine Eq.trans (SQLiteDB.mapGet_LoadStats _ n hn hlm hmem) ?_
  congr 1
  show SQLiteDB.sumClicks ((s.stats ++ [⟨linkID n, now1, a⟩])
      ++ [⟨linkID n, now2, b⟩]) (linkID n) = _
  rw [SQLiteDB.sumClicks_append, SQLiteDB.sumClicks_append]
  simp [SQLiteDB.sumClicks]

/-- C2 witness: with a Link foo stored, SaveStats of 3 then of 2 makes
LoadStats report 5 under foo. -/
theorem claim_C2_witness :
    mapGet (SQLiteDB.LoadStats
        ((SQLiteDB.SaveStats ((SQLiteDB.SaveStats
              (⟨[⟨("foo"), ("foo"), ("http://example.com"), 0, 0, ("alice")⟩], []⟩ : DBState)
              10 [(("foo"), 3)] []).1)
          20 [(("foo"), 2)] []).1)) ("foo") = some 5 := by
  have h := claim_C2_stats_accumulate
    ⟨[⟨("foo"), ("foo"), ("http://example.com"), 0, 0, ("alice")⟩], []⟩
    ("foo") 3 2 10 20 (by decide) (by decide)
  simpa [SQLiteDB.sumClicks] using h

/-- C4: Save is an idempotent upsert keyed by the normalized identifier.
Both Save calls (create or replace) succeed identically, and after saving
two links with the same short name exactly one record exists for that key,
holding the fields of the latest Save. -/
theorem claim_C4_upsert_idempotent (s : DBState) (l1 l2 : Link)
    (hshort : l1.short = l2.short)
    (hnd : (s.links.map (fun r => r.id)).Nodup) :
    SQLiteDB.Save s l1 = .ok (SQLiteDB.saveState s l1) ∧
    SQLiteDB.Save (SQLiteDB.saveState s l1) l2
      = .ok (SQLiteDB.saveState (SQLiteDB.saveState s l1) l2) ∧
    (SQLiteDB.saveState (SQLiteDB.saveState s l1) l2).links.filter
        (fun r => r.id = linkID l2.short) = [SQLiteDB.rowOfLink l2] := by
  refine ⟨rfl, rfl, ?_⟩
  have hnd1 : ((SQLiteDB.saveState s l1).links.map (fun r => r.id)).Nodup :=
    SQLiteDB.nodup_upsertRow _ _ hnd
  exact SQLiteDB.filter_upsertRow (SQLiteDB.saveState s l1).links
    (SQLiteDB.rowOfLink l2) hnd1

/-- C4 witness: two saves of foo with different destinations leave exactly
the latest record. -/
theorem claim_C4_witness :
    (SQLiteDB.saveState (SQLiteDB.saveState ⟨[], []⟩
        ⟨("foo"), ("http://a"), ⟨1, 0, false⟩, ⟨1, 0, false⟩, ("alice")⟩)
        ⟨("foo"), ("http://b"), ⟨2, 0, false⟩, ⟨2, 0, false⟩, ("bob")⟩).links.filter
      (fun r => r.id = linkID ("foo"))
    = [SQLiteDB.rowOfLink ⟨("foo"), ("http://b"), ⟨2, 0, false⟩, ⟨2, 0, false⟩, ("bob")⟩] :=
  (claim_C4_upsert_idempotent ⟨[], []⟩
    ⟨("foo"), ("http://a"), ⟨1, 0, false⟩, ⟨1, 0, false⟩, ("alice")⟩
    ⟨("foo"), ("http://b"), ⟨2, 0, false⟩, ⟨2, 0, false⟩, ("bob")⟩
    rfl (by decide)).2.2

/-- C5: SaveStats is all-or-nothing. If any insert of the transaction
fails, the state is unchanged and an error is returned (no delta of the
call is recorded); if none fails, every delta of the call is appended as a
new ledger row and no error is returned. -/
theorem claim_C5_savestats_atomic (s : DBState) (now : Int)
    (deltas : List (String × Int)) (failures : List Bool) :
    ((∃ i, i < deltas.length ∧ failures.getD i false = true) →
      (SQLiteDB.SaveStats s now deltas failures).1 = s ∧
      (SQLiteDB.SaveStats s now deltas failures).2.isSome = true) ∧
    ((∀ i, i < deltas.length → failures.getD i false = false) →
      SQLiteDB.SaveStats s now deltas failures =
        (⟨s.links, s.stats ++ deltas.map
            (fun p => (⟨linkID p.1, now, p.2⟩ : StatsRow))⟩, none)) := by
  constructor
  · intro h
    obtain ⟨e, he⟩ := SQLiteDB.execLoop_error now deltas failures h
    simp [SQLiteDB.SaveStats, he]
  · intro h
    simp [SQLiteDB.SaveStats, SQLiteDB.execLoop_ok now deltas failures h]

/-- C5 witness: a failing second insert leaves the store unchanged; with no
failure both deltas land in the ledger. -/
theorem claim_C5_witness :
    (SQLiteDB.SaveStats ⟨[], []⟩ 7 [(("a"), 1), (("b"), 2)] [false, true]).1
      = (⟨[], []⟩ : DBState) ∧
    SQLiteDB.SaveStats ⟨[], []⟩ 7 [(("a"), 1), (("b"), 2)] []
      = (⟨[], [⟨linkID ("a"), 7, 1⟩, ⟨linkID ("b"), 7, 2⟩]⟩, none) := by
  constructor
  · exact ((claim_C5_savestats_atomic ⟨[], []⟩ 7 [(("a"), 1), (("b"), 2)]
      [false, true]).1 ⟨1, by decide, by decide⟩).1
  · have h := (claim_C5_savestats_atomic ⟨[], []⟩ 7 [(("a"), 1), (("b"), 2)] []).2
      (by intro i _; simp)
    simpa using h

/-- C8: Save surfaces the internal invariant violation. Whenever the
reported affected-row count differs from one, the post-statement check of
Save fails with the row-count error (the ValidationError of the spec
taxonomy) instead of succeeding; equivalently a successful Save reported
exactly one affected row. -/
theorem claim_C8_rows_affected (s2 : DBState) (rows : Int) :
    (rows ≠ 1 → SQLiteDB.saveResultCheck s2 rows =
      .error (.errorf (("expected to affect 1 row, affected ") ++ toString rows))) ∧
    (∀ s3 : DBState, SQLiteDB.saveResultCheck s2 rows = .ok s3 → rows = 1) := by
  constructor
  · intro h
    simp [SQLiteDB.saveResultCheck, h]
  · intro s3 h
    by_cases hr : rows = 1
    · exact hr
    · simp [SQLiteDB.saveResultCheck, hr] at h

/-- C8 witness: an affected count of zero is rejected, a count of one is
accepted. -/
theorem claim_C8_witness :
    SQLiteDB.saveResultCheck ⟨[], []⟩ 0 =
      .error (.errorf (("expected to affect 1 row, affected ") ++ toString (0 : Int))) ∧
    (1 : Int) = 1 :=
  ⟨(claim_C8_rows_affected ⟨[], []⟩ 0).1 (by decide),
   (claim_C8_rows_affected ⟨[], []⟩ 1).2 ⟨[], []⟩ rfl⟩

/-- C10: the local round trip truncates timestamps to whole seconds. Save
always succeeds, and Load of the saved short name returns a Link whose
Short, Long and Owner are unchanged and whose Created and LastEdit carry
the epoch seconds of the saved times with zero nanoseconds, in UTC. -/
theorem claim_C10_roundtrip_truncates (s : DBState) (l : Link) :
    SQLiteDB.Save s l = .ok (SQLiteDB.saveState s l) ∧
    SQLiteDB.Load (SQLiteDB.saveState s l) l.short =
      .ok ⟨l.short, l.long, ⟨l.created.sec, 0, true⟩, ⟨l.lastEdit.sec, 0, true⟩,
        l.owner⟩ := by
  refine ⟨rfl, ?_⟩
  have h := SQLiteDB.find?_upsertRow s.links (SQLiteDB.rowOfLink l)
  simp only [SQLiteDB.Load, SQLiteDB.saveState]
  rw [show linkID l.short = (SQLiteDB.rowOfLink l).id from rfl, h]
  rfl

/-- C3: a missing record yields the distinguished NotFound condition
(fs.ErrNotExist) rather than a generic error, in both backends: the local
store when no Links row carries the normalized ID, the remote store when a
successful loadOne response carries a null value; the sentinel differs from
every message-carrying generic error. -/
theorem claim_C3_load_notfound (s : DBState) (short1 : String) (c : ConvexDB)
    (short2 : String) (em bodyR : String)
    (habsent : ∀ r ∈ s.links, r.id ≠ linkID short1) :
    SQLiteDB.Load s short1 = .error .errNotExist ∧
    ConvexDB.Load c short2 (.resp ⟨200, some ⟨("success"), .null, em⟩, bodyR⟩)
      = .error .errNotExist ∧
    (∀ m : String, GoErr.errNotExist ≠ GoErr.errorf m) := by
  refine ⟨?_, ?_, fun m h => by cases h⟩
  · unfold SQLiteDB.Load
    have hfind : s.links.find? (fun r => r.id = linkID short1) = none :=
      List.find?_eq_none.mpr (fun r hr => by simpa using habsent r hr)
    rw [hfind]
  · simp [ConvexDB.Load, ConvexDB.query, ConvexDB.queryResult]

/-- C3 witness: the unknown-lookup scenario in both backends. -/
theorem claim_C3_witness :
    SQLiteDB.Load ⟨[], []⟩ ("does-not-exist") = .error .errNotExist ∧
    ConvexDB.Load ⟨("http://convex"), ("tok")⟩ ("does-not-exist")
      (.resp ⟨200, some ⟨("success"), .null, ("")⟩, ("")⟩) = .error .errNotExist := by
  have h := claim_C3_load_notfound ⟨[], []⟩ ("does-not-exist")
    ⟨("http://convex"), ("tok")⟩ ("does-not-exist") ("") ("") (by simp)
  exact ⟨h.1, h.2.1⟩

/-- C6: remote error mapping. A 200 response whose envelope has status
error fails with the application error carrying the server's message
verbatim as a substring; a non-200 status code fails with the status-code
protocol error, distinct from every application error; an envelope status
that is neither success nor error fails with the unexpected-response
protocol error, also distinct from every application error; and an
operation succeeds only on a 200 response whose envelope status is
success. Both for mutation and for query. -/
theorem claim_C6_remote_errors (c : ConvexDB) (args : UdfExecution) :
    (∀ v em bodyR,
      (ConvexDB.mutation c args (.resp ⟨200, some ⟨("error"), v, em⟩, bodyR⟩)).2
        = .error (.errorf (("error from Convex: ") ++ em)) ∧
      ∃ pre post : String, (("error from Convex: ") ++ em) = pre ++ em ++ post) ∧
    (∀ (code : Int) (body : Option ConvexResponse) (bodyR : String), code ≠ 200 →
      (ConvexDB.mutation c args (.resp ⟨code, body, bodyR⟩)).2
        = .error (.errorf (("unexpected status code from Convex: ") ++ toString code)) ∧
      ∀ m : String, (("unexpected status code from Convex: ") ++ toString code)
        ≠ (("error from Convex: ") ++ m)) ∧
    (∀ st v em bodyR, st ≠ ("success") → st ≠ ("error") →
      (ConvexDB.mutation c args (.resp ⟨200, some ⟨st, v, em⟩, bodyR⟩)).2
        = .error (.errorf (("unexpected response from Convex: ") ++ bodyR)) ∧
      ∀ m : String, (("unexpected response from Convex: ") ++ bodyR)
        ≠ (("error from Convex: ") ++ m)) ∧
    (∀ r : HttpResp, (ConvexDB.mutation c args (.resp r)).2 = .ok () →
      r.code = 200 ∧ ∃ env, r.body = some env ∧ env.status = ("success")) ∧
    (∀ v em bodyR,
      (ConvexDB.query c args (.resp ⟨200, some ⟨("error"), v, em⟩, bodyR⟩)).2
        = .error (.errorf (("error from Convex: ") ++ em))) ∧
    (∀ (code : Int) (body : Option ConvexResponse) (bodyR : String), code ≠ 200 →
      (ConvexDB.query c args (.resp ⟨code, body, bodyR⟩)).2
        = .error (.errorf ((("unexpected status code from Convex: ") ++ toString code)
            ++ (": ") ++ bodyR))) ∧
    (∀ st v em bodyR, st ≠ ("success") → st ≠ ("error") →
      (ConvexDB.query c args (.resp ⟨200, some ⟨st, v, em⟩, bodyR⟩)).2
        = .error (.errorf (("unexpected response from Convex: ") ++ bodyR))) ∧
    (∀ r : HttpResp, ∀ v, (ConvexDB.query c args (.resp r)).2 = .ok v →
      r.code = 200 ∧ ∃ env, r.body = some env ∧ env.status = ("success")
        ∧ env.value = v) := by
  refine ⟨?_, ?_, ?_, ?_, ?_, ?_, ?_, ?_⟩
  · intro v em bodyR
    refine ⟨by simp [ConvexDB.mutation, ConvexDB.mutationResult],
      ⟨("error from Convex: "), (""), by simp⟩⟩
  · intro code body bodyR hc
    refine ⟨by simp [ConvexDB.mutation, ConvexDB.mutationResult, hc], ?_⟩
    intro m
    exact ne_of_head_ne _ _ ('u') ('e') rfl rfl (by decide)
  · intro st v em bodyR hs he
    refine ⟨by simp [ConvexDB.mutation, ConvexDB.mutationResult, hs, he], ?_⟩
    intro m
    exact ne_of_head_ne _ _ ('u') ('e') rfl rfl (by decide)
  · intro r hok
    obtain ⟨code, body, bodyR⟩ := r
    by_cases hc : code = 200
    · subst hc
      cases body with
      | none => simp [ConvexDB.mutation, ConvexDB.mutationResult] at hok
      | some env =>
          by_cases hs : env.status = ("success")
          · exact ⟨rfl, env, rfl, hs⟩
          · by_cases he : env.status = ("error") <;>
              simp [ConvexDB.mutation, ConvexDB.mutationResult, hs, he] at hok
    · simp [ConvexDB.mutation, ConvexDB.mutationResult, hc] at hok
  · intro v em bodyR
    simp [ConvexDB.query, ConvexDB.queryResult]
  · intro code body bodyR hc
    simp [ConvexDB.query, ConvexDB.queryResult, hc]
  · intro st v em bodyR hs he
    simp [ConvexDB.query, ConvexDB.queryResult, hs, he]
  · intro r v hok
    obtain ⟨code, body, bodyR⟩ := r
    by_cases hc : code = 200
    · subst hc
      cases body with
      | none => simp [ConvexDB.query, ConvexDB.queryResult] at hok
      | some env =>
          by_cases hs : env.status = ("success")
          · simp [ConvexDB.query, ConvexDB.queryResult, hs] at hok
            exact ⟨rfl, env, rfl, hs, hok⟩
          · by_cases he : env.status = ("error") <;>
              simp [ConvexDB.query, ConvexDB.queryResult, hs, he] at hok
    · simp [ConvexDB.query, ConvexDB.queryResult, hc] at hok

/-- C6 witness: the boom scenario, an unexpected status code, and an
unrecognized envelope status at concrete inputs. -/
theorem claim_C6_witness :
    (ConvexDB.mutation ⟨("u"), ("tok")⟩ ⟨("store"), [], ("json")⟩
        (.resp ⟨200, some ⟨("error"), .null, ("boom")⟩, ("")⟩)).2
      = .error (.errorf (("error from Convex: ") ++ ("boom"))) ∧
    (ConvexDB.mutation ⟨("u"), ("tok")⟩ ⟨("store"), [], ("json")⟩
        (.resp ⟨500, none, ("")⟩)).2
      = .error (.errorf (("unexpected status code from Convex: ")
          ++ toString (500 : Int))) ∧
    (ConvexDB.query ⟨("u"), ("tok")⟩ ⟨("load:loadAll"), [], ("json")⟩
        (.resp ⟨200, some ⟨("weird"), .null, ("")⟩, ("body")⟩)).2
      = .error (.errorf (("unexpected response from Convex: ") ++ ("body"))) := by
  have h := claim_C6_remote_errors ⟨("u"), ("tok")⟩ ⟨("store"), [], ("json")⟩
  have hq := claim_C6_remote_errors ⟨("u"), ("tok")⟩ ⟨("load:loadAll"), [], ("json")⟩
  exact ⟨(h.1 .null ("boom") ("")).1,
    (h.2.1 500 none ("") (by decide)).1,
    hq.2.2.2.2.2.2.1 ("weird") .null ("") ("body") (by decide) (by decide)⟩

/-- C7 is violated by the code: the created and lastEdit fields of
LinkDocument are float64, so UseNumber does not protect them and an integer
epoch value beyond the 53-bit significand of binary64 is rounded on decode,
and likewise rounded by the float64 conversion on the Save path; the epoch
value 9007199254740993 sent by the server comes back as 9007199254740992. -/
theorem claim_C7_float64_rounding_bug :
    (decodeLinkDocument ⟨("id1"), ("foo"), ("http://a"), 9007199254740993, 0,
        ("o")⟩).created = 9007199254740992 ∧
    (documentOfLink ⟨("foo"), ("http://a"), ⟨9007199254740993, 0, true⟩, ⟨0, 0, true⟩,
        ("o")⟩).created = 9007199254740992 ∧
    ConvexDB.Load ⟨("u"), ("tok")⟩ ("foo")
        (.resp ⟨200, some ⟨("success"),
          .doc ⟨("id1"), ("foo"), ("http://a"), 9007199254740993, 0, ("o")⟩, ("")⟩, ("")⟩)
      = .ok ⟨("foo"), ("http://a"), ⟨9007199254740992, 0, false⟩, ⟨0, 0, false⟩, ("o")⟩ ∧
    (9007199254740992 : Int) ≠ 9007199254740993 := by
  refine ⟨by decide, by decide, by rfl, by decide⟩

/-- C9: every query and mutation merges the bearer token into the
caller-visible args map before transmission, so after the call the map
contains the token binding whatever the outcome of the round trip was. -/
theorem claim_C9_token_merged (c : ConvexDB) (args : UdfExecution)
    (outcome : HttpOutcome) :
    mapGet ((ConvexDB.mutation c args outcome).1).args ("token")
      = some (.str c.token) ∧
    mapGet ((ConvexDB.query c args outcome).1).args ("token")
      = some (.str c.token) :=
  ⟨mapGet_mapSet_self args.args ("token") (.str c.token),
   mapGet_mapSet_self args.args ("token") (.str c.token)⟩

end Golink
